import Mathlib

/-!
Shallow embedding of `ssf/samples.go` (package `ssf` of the veneur
repository): construction and probabilistic sampling of SSF metric
samples.

Modelling choices:
* `float32` values are embedded as `ℚ`; the arithmetic the claims are
  about (comparison, multiplication, multiplication by `1.0`) is exact.
* `time.Duration` is Go's `int64` nanosecond count; embedded as `ℤ`.
  Go division of integers truncates toward zero (`Int.tdiv`) and
  panics on a zero divisor, so `Timing` returns an `Option`.
* Go's `rand.Float32()` draws are embedded as an oracle `rng : ℕ → ℚ`
  consumed one value per sample in order; a uniform source satisfies
  `0 ≤ rng i ∧ rng i < 1` for every `i`.
* The package-global `var NamePrefix string` becomes an explicit first
  argument of each constructor.
* `map[string]string` tags are embedded as an association list; none
  of the operations inspects tags.
-/

namespace ssf

/-- Metric kinds of an SSF sample (`SSFSample_COUNTER` etc. from the
generated protobuf type referenced by samples.go). -/
inductive SSFSample_Metric where
  | COUNTER
  | GAUGE
  | HISTOGRAM
  | SET
deriving DecidableEq, Repr

/-- The SSF sample record, restricted to the fields samples.go touches.
Unset fields default to Go zero values. -/
structure SSFSample where
  Metric : SSFSample_Metric := .COUNTER
  Name : String := ""
  Value : ℚ := 0
  Message : String := ""
  Tags : List (String × String) := []
  Unit : String := ""
  SampleRate : ℚ := 0
deriving DecidableEq, Repr

/-- `Unit` from samples.go. In the Go source the returned closure takes
its `SSFSample` argument by value (`func(SSFSample)`, unlike the other
two options which take `*SSFSample`), so the assignment `s.Unit = name`
lands on a local copy that is discarded; the caller-visible effect on
the sample the option is applied to is the identity. -/
def Unit (name : String) : SSFSample → SSFSample := fun s =>
  let _copy := { s with Unit := name }
  s

/-- `SampleRate` from samples.go: sets the sample rate only when the
argument lies in the interval (0, 1]. -/
def SampleRate (rate : ℚ) : SSFSample → SSFSample := fun s =>
  if 0 < rate ∧ rate ≤ 1 then { s with SampleRate := rate } else s

/-- `time.Duration`: an `int64` count of nanoseconds. -/
abbrev Duration := ℤ

/-- `time.Nanosecond`. -/
def Nanosecond : Duration := 1

/-- `time.Microsecond`. -/
def Microsecond : Duration := 1000

/-- `time.Millisecond`. -/
def Millisecond : Duration := 1000000

/-- `time.Second`. -/
def Second : Duration := 1000000000

/-- `time.Minute`. -/
def Minute : Duration := 60000000000

/-- `time.Hour`. -/
def Hour : Duration := 3600000000000

/-- The `resolutions` map from samples.go, as a lookup function. -/
def resolutions (d : Duration) : Option String :=
  if d = Nanosecond then some "ns"
  else if d = Microsecond then some "µs"
  else if d = Millisecond then some "ms"
  else if d = Second then some "s"
  else if d = Minute then some "min"
  else if d = Hour then some "h"
  else none

/-- `TimeUnit` from samples.go: sets the unit to the resolution's
symbol when the resolution is one of the six recognized constants, and
does nothing otherwise. -/
def TimeUnit (resolution : Duration) : SSFSample → SSFSample := fun s =>
  match resolutions resolution with
  | some unit => { s with Unit := unit }
  | none => s

/-- `create` from samples.go. -/
def create (base : SSFSample) : SSFSample := base

/-- `RandomlySample`'s loop from samples.go, started at RNG index `i`:
for each sample one value `rng i` is drawn; the sample is included when
`rng i ≤ rate`, and an included sample has its `SampleRate` multiplied
by `rate` when `rate` lies in (0, 1]. -/
def RandomlySampleFrom (rate : ℚ) (rng : ℕ → ℚ) :
    List SSFSample → ℕ → List SSFSample
  | [], _ => []
  | s :: ss, i =>
    if rng i ≤ rate then
      (if 0 < rate ∧ rate ≤ 1 then
        { s with SampleRate := s.SampleRate * rate }
      else s) :: RandomlySampleFrom rate rng ss (i + 1)
    else RandomlySampleFrom rate rng ss (i + 1)

/-- `RandomlySample` from samples.go, with the global RNG made explicit
as the oracle `rng`. -/
def RandomlySample (rate : ℚ) (rng : ℕ → ℚ)
    (samples : List SSFSample) : List SSFSample :=
  RandomlySampleFrom rate rng samples 0

/-- `Count` from samples.go; the Go global `NamePrefix` is the explicit
first argument. -/
def Count (pfx name : String) (value : ℚ)
    (tags : List (String × String)) : SSFSample :=
  create { Metric := .COUNTER, Name := pfx ++ name, Value := value,
           Tags := tags, SampleRate := 1 }

/-- `Gauge` from samples.go. -/
def Gauge (pfx name : String) (value : ℚ)
    (tags : List (String × String)) : SSFSample :=
  create { Metric := .GAUGE, Name := pfx ++ name, Value := value,
           Tags := tags, SampleRate := 1 }

/-- `Histogram` from samples.go. -/
def Histogram (pfx name : String) (value : ℚ)
    (tags : List (String × String)) : SSFSample :=
  create { Metric := .HISTOGRAM, Name := pfx ++ name, Value := value,
           Tags := tags, SampleRate := 1 }

/-- `Set` from samples.go: the string value goes into `Message`. -/
def SetSample (pfx name : String) (value : String)
    (tags : List (String × String)) : SSFSample :=
  create { Metric := .SET, Name := pfx ++ name, Message := value,
           Tags := tags, SampleRate := 1 }

/-- `Timing` from samples.go: `time := float32(value / resolution)` is
Go int64 division (truncation toward zero) followed by a conversion,
then a `Histogram` sample is built and `TimeUnit resolution` applied.
Go panics on integer division by zero, modelled as `none` when
`resolution = 0`. -/
def Timing (pfx name : String) (value resolution : Duration)
    (tags : List (String × String)) : Option SSFSample :=
  if resolution = 0 then none
  else
    let time : ℚ := ((Int.tdiv value resolution : ℤ) : ℚ)
    let ssfsample := Histogram pfx name time tags
    some (TimeUnit resolution ssfsample)

/-- C7: the `Unit` option does not set the unit of the sample it is
applied to: the Go closure takes the sample by value, so the assignment
mutates a discarded copy. Applied to a fresh `Count` sample, the
resulting unit is still the empty string, not the requested "ms". -/
theorem unit_option_has_no_effect :
    (ssf.Unit "ms" (Count "" "x" 1 [])).Unit = "" ∧
    ssf.Unit "ms" (Count "" "x" 1 []) = Count "" "x" 1 [] := by
  exact ⟨rfl, rfl⟩

/-- C8: for a rate outside (0, 1], `SampleRate` leaves the whole sample
(in particular its sample rate) unchanged, and no error is raised (the
modifier is a total function). -/
theorem sampleRate_outOfRange_noop (rate : ℚ)
    (h : ¬(0 < rate ∧ rate ≤ 1)) (s : SSFSample) :
    ssf.SampleRate rate s = s := by
  unfold ssf.SampleRate
  exact if_neg h

/-- C8 witness: `SampleRate 1.5` and `SampleRate (-0.2)` applied to a
fresh `Count` sample leave its sample rate at 1. -/
theorem sampleRate_outOfRange_noop_witness :
    (¬(0 < mkRat 3 2 ∧ mkRat 3 2 ≤ (1 : ℚ))) ∧
    (ssf.SampleRate (mkRat 3 2) (Count "" "x" 1 [])).SampleRate = 1 ∧
    (ssf.SampleRate (mkRat (-1) 5) (Count "" "x" 1 [])).SampleRate = 1 :=
  ⟨by decide,
   (congrArg SSFSample.SampleRate
     (sampleRate_outOfRange_noop (mkRat 3 2) (by decide)
       (Count "" "x" 1 []))).trans rfl,
   (congrArg SSFSample.SampleRate
     (sampleRate_outOfRange_noop (mkRat (-1) 5) (by decide)
       (Count "" "x" 1 []))).trans rfl⟩

/-- C10: frame condition of the two pointer-taking modifiers:
`SampleRate` changes at most the `SampleRate` field and `TimeUnit`
changes at most the `Unit` field; every other field is preserved. -/
theorem modifiers_frame_condition (rate : ℚ) (resolution : Duration)
    (s : SSFSample) :
    ((ssf.SampleRate rate s).Metric = s.Metric ∧
     (ssf.SampleRate rate s).Name = s.Name ∧
     (ssf.SampleRate rate s).Value = s.Value ∧
     (ssf.SampleRate rate s).Message = s.Message ∧
     (ssf.SampleRate rate s).Tags = s.Tags ∧
     (ssf.SampleRate rate s).Unit = s.Unit) ∧
    ((TimeUnit resolution s).Metric = s.Metric ∧
     (TimeUnit resolution s).Name = s.Name ∧
     (TimeUnit resolution s).Value = s.Value ∧
     (TimeUnit resolution s).Message = s.Message ∧
     (TimeUnit resolution s).Tags = s.Tags ∧
     (TimeUnit resolution s).SampleRate = s.SampleRate) := by
  constructor
  · unfold ssf.SampleRate
    split <;> simp
  · unfold TimeUnit
    cases hr : resolutions resolution <;> simp

/-- C6: `Timing` does not compute a floating-point quotient: the Go
expression `float32(value / resolution)` divides the two int64 values
first (truncating toward zero) and only then converts. A 1500 ms
duration at second resolution yields the value 1, where the
floating-point quotient is 3/2. (The exact-division example of the
claim does hold: 1500 ms at millisecond resolution gives 1500, "ms".) -/
theorem timing_truncates_integer_quotient :
    (Timing "" "x" 1500000000 Second []).map SSFSample.Value = some 1 ∧
    (1500000000 : ℚ) / ((Second : ℤ) : ℚ) = mkRat 3 2 ∧
    (Timing "" "x" 1500000000 Millisecond []).map SSFSample.Value =
      some 1500 ∧
    (Timing "" "x" 1500000000 Millisecond []).map SSFSample.Unit =
      some "ms" := by
  refine ⟨?_, by norm_num [Second, Rat.mkRat_eq_div], ?_, ?_⟩ <;>
    simp [Timing, Second, Millisecond, Histogram, create, TimeUnit,
      resolutions, Nanosecond, Microsecond, Minute, Hour]
  · norm_num [Int.tdiv]
  · norm_num [Int.tdiv]

/-- C9: `Timing` with resolution 0 is not total: the Go int64 division
`value / resolution` panics on a zero divisor (modelled by `none`). -/
theorem timing_zero_resolution_panics :
    Timing "" "x" 1500000000 0 [] = none := rfl

/-- C9 (amended): for every nonzero resolution `Timing` returns a
sample; together with the remaining operations being total functions
of the embedding, no other input makes any operation of the core
fail. -/
theorem timing_total_on_nonzero_resolution (pfx name : String)
    (value resolution : Duration) (tags : List (String × String))
    (h : resolution ≠ 0) :
    (Timing pfx name value resolution tags).isSome = true := by
  unfold Timing
  rw [if_neg h]
  rfl

/-- C9 witness: `Timing` at millisecond resolution returns a sample. -/
theorem timing_total_on_nonzero_resolution_witness :
    Millisecond ≠ (0 : ℤ) ∧
    (Timing "" "x" 1500000000 Millisecond []).isSome = true :=
  ⟨by decide,
   timing_total_on_nonzero_resolution "" "x" 1500000000 Millisecond []
     (by decide)⟩

/-- C1: for a rate in (0, 1], one pass of `RandomlySample` keeps
exactly the samples whose draw satisfies `u ≤ rate`, each kept sample
carrying sample rate `r0 * rate`; rejected samples are absent. -/
theorem randomlySample_inRange_spec (rate : ℚ) (rng : ℕ → ℚ)
    (h : 0 < rate ∧ rate ≤ 1) :
    ∀ (samples : List SSFSample) (i : ℕ),
      RandomlySampleFrom rate rng samples i =
        (samples.enumFrom i).filterMap (fun p =>
          if rng p.1 ≤ rate then
            some { p.2 with SampleRate := p.2.SampleRate * rate }
          else none) := by
  intro samples
  induction samples with
  | nil => intro i; rfl
  | cons s ss ih =>
    intro i
    by_cases hc : rng i ≤ rate
    · simp [RandomlySampleFrom, List.enumFrom, hc, h, ih]
    · simp [RandomlySampleFrom, List.enumFrom, hc, h, ih]

/-- C1 witness: with rate 1 and draws all 0 the single sample is kept
with sample rate multiplied by the rate. -/
theorem randomlySample_inRange_spec_witness :
    ((0 : ℚ) < 1 ∧ (1 : ℚ) ≤ 1) ∧
    RandomlySampleFrom 1 (fun _ => 0)
        [{ Name := "a", SampleRate := 1 }] 0 =
      (([({ Name := "a", SampleRate := 1 } : SSFSample)]).enumFrom
          0).filterMap (fun p =>
        if (fun _ => (0 : ℚ)) p.1 ≤ 1 then
          some { p.2 with SampleRate := p.2.SampleRate * 1 }
        else none) :=
  ⟨⟨by decide, by decide⟩,
   randomlySample_inRange_spec 1 (fun _ => 0) ⟨by decide, by decide⟩
     [{ Name := "a", SampleRate := 1 }] 0⟩

/-- C2: for a rate outside (0, 1], inclusion is still decided by the
raw comparison `u ≤ rate` and an included sample is passed through
entirely unchanged; in particular for a rate greater than 1 and a
uniform source in [0, 1), every sample is included untouched. -/
theorem randomlySample_outOfRange_spec (rate : ℚ) (rng : ℕ → ℚ)
    (h : ¬(0 < rate ∧ rate ≤ 1)) :
    (∀ (s : SSFSample) (ss : List SSFSample) (i : ℕ),
        RandomlySampleFrom rate rng (s :: ss) i =
          if rng i ≤ rate then
            s :: RandomlySampleFrom rate rng ss (i + 1)
          else RandomlySampleFrom rate rng ss (i + 1)) ∧
    (1 < rate → (∀ j, 0 ≤ rng j ∧ rng j < 1) →
      ∀ (samples : List SSFSample) (i : ℕ),
        RandomlySampleFrom rate rng samples i = samples) := by
  constructor
  · intro s ss i
    simp only [RandomlySampleFrom]
    rw [if_neg h]
  · intro h1 hu samples
    induction samples with
    | nil => intro i; rfl
    | cons s ss ih =>
      intro i
      have hle : rng i ≤ rate := ((hu i).2.trans h1).le
      simp only [RandomlySampleFrom]
      rw [if_pos hle, if_neg h, ih (i + 1)]

/-- C2 witness: rate 2 with draws all 1/2 keeps a one-sample batch
unchanged. -/
theorem randomlySample_outOfRange_spec_witness :
    (¬ (0 < (2 : ℚ) ∧ (2 : ℚ) ≤ 1)) ∧
    ((∀ (s : SSFSample) (ss : List SSFSample) (i : ℕ),
        RandomlySampleFrom 2 (fun _ => mkRat 1 2) (s :: ss) i =
          if (fun _ => mkRat 1 2) i ≤ (2 : ℚ) then
            s :: RandomlySampleFrom 2 (fun _ => mkRat 1 2) ss (i + 1)
          else RandomlySampleFrom 2 (fun _ => mkRat 1 2) ss (i + 1)) ∧
     (1 < (2 : ℚ) →
      (∀ j : ℕ, 0 ≤ (fun _ => mkRat 1 2) j ∧
        (fun _ => mkRat 1 2) j < (1 : ℚ)) →
      ∀ (samples : List SSFSample) (i : ℕ),
        RandomlySampleFrom 2 (fun _ => mkRat 1 2) samples i = samples)) :=
  ⟨by decide, randomlySample_outOfRange_spec 2 (fun _ => mkRat 1 2)
    (by decide)⟩

/-- C3 counterexample: the `SampleRate` modifier can raise the sample
rate: applied with argument 9/10 to a sample carrying rate 1/2 (which
lies in (0, 1]), the resulting rate 9/10 exceeds the prior 1/2, so the
chain consisting of that single modifier application is not
non-increasing. -/
theorem sampleRate_chain_not_monotone :
    (0 < ({ SampleRate := mkRat 1 2 } : SSFSample).SampleRate ∧
      ({ SampleRate := mkRat 1 2 } : SSFSample).SampleRate ≤ 1) ∧
    ¬ ((ssf.SampleRate (mkRat 9 10)
          { SampleRate := mkRat 1 2 }).SampleRate ≤
        ({ SampleRate := mkRat 1 2 } : SSFSample).SampleRate) := by
  decide

/-- C3 (amended): restricted to `RandomlySample` passes the invariant
does hold: if every input sample carries a rate in (0, 1], then every
output sample of a pass descends from an input sample, with a rate
that is no larger and again lies in (0, 1] — so along any chain of
passes the rate never increases. -/
theorem randomlySample_sampleRate_nonincreasing (rate : ℚ)
    (rng : ℕ → ℚ) :
    ∀ (samples : List SSFSample) (i : ℕ),
      (∀ s ∈ samples, 0 < s.SampleRate ∧ s.SampleRate ≤ 1) →
      ∀ t ∈ RandomlySampleFrom rate rng samples i,
        ∃ s ∈ samples, t.SampleRate ≤ s.SampleRate ∧
          0 < t.SampleRate ∧ t.SampleRate ≤ 1 := by
  intro samples
  induction samples with
  | nil => intro i h t ht; simp [RandomlySampleFrom] at ht
  | cons s ss ih =>
    intro i h t ht
    have hs := h s (List.mem_cons_self s ss)
    have htail := fun x hx => h x (List.mem_cons_of_mem s hx)
    simp only [RandomlySampleFrom] at ht
    by_cases hc : rng i ≤ rate
    · rw [if_pos hc] at ht
      rcases List.mem_cons.mp ht with he | hm
      · by_cases hr : 0 < rate ∧ rate ≤ 1
        · rw [if_pos hr] at he
          refine ⟨s, List.mem_cons_self s ss, ?_, ?_, ?_⟩
          · rw [he]
            exact mul_le_of_le_one_right hs.1.le hr.2
          · rw [he]
            exact mul_pos hs.1 hr.1
          · rw [he]
            exact le_trans (mul_le_of_le_one_right hs.1.le hr.2) hs.2
        · rw [if_neg hr] at he
          exact ⟨s, List.mem_cons_self s ss, he ▸ le_refl _,
            he ▸ hs.1, he ▸ hs.2⟩
      · obtain ⟨u, hu1, hu2⟩ := ih (i + 1) htail t hm
        exact ⟨u, List.mem_cons_of_mem s hu1, hu2⟩
    · rw [if_neg hc] at ht
      obtain ⟨u, hu1, hu2⟩ := ih (i + 1) htail t ht
      exact ⟨u, List.mem_cons_of_mem s hu1, hu2⟩

/-- C3 witness: a pass with rate 1 over a one-sample batch with rate 1
satisfies the non-increase property. -/
theorem randomlySample_sampleRate_nonincreasing_witness :
    (∀ s ∈ [({ Name := "a", SampleRate := 1 } : SSFSample)],
      0 < s.SampleRate ∧ s.SampleRate ≤ 1) ∧
    (∀ t ∈ RandomlySampleFrom 1 (fun _ => 0)
        [{ Name := "a", SampleRate := 1 }] 0,
      ∃ s ∈ [({ Name := "a", SampleRate := 1 } : SSFSample)],
        t.SampleRate ≤ s.SampleRate ∧
          0 < t.SampleRate ∧ t.SampleRate ≤ 1) :=
  ⟨by intro s hs; rw [List.mem_singleton] at hs; rw [hs]; decide,
   randomlySample_sampleRate_nonincreasing 1 (fun _ => 0)
     [{ Name := "a", SampleRate := 1 }] 0
     (by intro s hs; rw [List.mem_singleton] at hs; rw [hs]; decide)⟩

/-- C4: with rate exactly 1 and a uniform source in [0, 1), every
sample is included (every draw satisfies `u ≤ 1`) and multiplying its
sample rate by 1 leaves the sample unchanged, so the pass is the
identity. -/
theorem randomlySample_rateOne_identity (rng : ℕ → ℚ)
    (hu : ∀ i, 0 ≤ rng i ∧ rng i < 1) :
    ∀ (samples : List SSFSample) (i : ℕ),
      RandomlySampleFrom 1 rng samples i = samples := by
  intro samples
  induction samples with
  | nil => intro i; rfl
  | cons s ss ih =>
    intro i
    simp only [RandomlySampleFrom]
    rw [if_pos (hu i).2.le, if_pos ⟨one_pos, le_refl (1 : ℚ)⟩,
      mul_one, ih (i + 1)]

/-- C4 witness: a pass with rate 1 and draws all 0 returns a concrete
two-sample batch unchanged. -/
theorem randomlySample_rateOne_identity_witness :
    RandomlySampleFrom 1 (fun _ => 0)
        [{ Name := "a", SampleRate := 1 },
         { Name := "b", SampleRate := mkRat 1 2 }] 0 =
      [{ Name := "a", SampleRate := 1 },
       { Name := "b", SampleRate := mkRat 1 2 }] :=
  randomlySample_rateOne_identity (fun _ => 0)
    (fun _ => ⟨le_refl 0, zero_lt_one⟩)
    [{ Name := "a", SampleRate := 1 },
     { Name := "b", SampleRate := mkRat 1 2 }] 0

/-- C5: for every rate, the output of a `RandomlySample` pass is a
sublist of the input with each element's sample rate adjusted the way
the pass adjusts survivors: relative order is preserved, nothing is
duplicated and nothing is synthesized. -/
theorem randomlySample_output_sublist (rate : ℚ) (rng : ℕ → ℚ) :
    ∀ (samples : List SSFSample) (i : ℕ),
      List.Sublist (RandomlySampleFrom rate rng samples i)
        (samples.map (fun s =>
          if 0 < rate ∧ rate ≤ 1 then
            { s with SampleRate := s.SampleRate * rate }
          else s)) := by
  intro samples
  induction samples with
  | nil => intro i; exact List.Sublist.refl []
  | cons s ss ih =>
    intro i
    simp only [RandomlySampleFrom, List.map_cons]
    by_cases hc : rng i ≤ rate
    · rw [if_pos hc]
      exact List.Sublist.cons₂ _ (ih (i + 1))
    · rw [if_neg hc]
      exact List.Sublist.cons _ (ih (i + 1))

end ssf
